import Mathlib

/-!
# m_nickcaps: channel mode +U (nick capital-letter policy)

A shallow embedding of `src/m_nickcaps.cpp` (InspIRCd 2.0 module).

Conventions of the embedding:

* a `std::string` is the list of its `char` values (`List Int`); the cast
  `(unsigned char)c` is reduction modulo 256;
* `unsigned int` values are natural numbers below `2^32`; every conversion to
  `unsigned int` and every `unsigned int` operation is reduced modulo `2^32`
  explicitly;
* `char capsmap[256]` is a map from the 256 indices to the stored `char`
  values;
* an integer division whose divisor is zero is undefined behaviour in C++ and
  is `none` here; every defined result is `some _`;
* `MAXBUF` is a macro of the host server that the module does not define; it
  is a parameter of `ReadConf`.
-/

namespace NickCaps

/-! ## Machine integers -/

/-- Conversion of an integer value to `unsigned int` (32 bits). -/
def toU32 (v : Int) : Nat := (v % 4294967296).toNat

/-- The cast `(unsigned char)c` of a `char` value. -/
def ucharOf (c : Int) : Fin 256 := ⟨(c % 256).toNat, by omega⟩

/-! ## Host objects the module reads -/

/-- The values the host hands out for the `nickcaps` configuration tag; a key
that is not configured is `none`. -/
structure ConfigTag where
  maxcaps : Option Int
  minlen : Option Int
  capsmap : Option (List Int)

/-- Modelled from the spec: `ConfigTag::getInt` of the host server, which is
not part of this repository. A configured key yields its integer value, an
absent key yields the default passed by the caller. The host returns a `long`;
the value is an integer here, and the caller converts it to `unsigned int`. -/
def getInt (v : Option Int) (dflt : Int) : Int := v.getD dflt

/-- Modelled from the spec: `ConfigTag::getString` of the host server, which is
not part of this repository. A configured key yields its string, an absent key
yields the default passed by the caller. -/
def getString (v : Option (List Int)) (dflt : List Int) : List Int := v.getD dflt

/-- The string literal `"ABCDEFGHIJKLMNOPQRSTUVWXYZ"`. -/
def defaultCapsmap : List Int :=
  [65, 66, 67, 68, 69, 70, 71, 72, 73, 74, 75, 76, 77,
   78, 79, 80, 81, 82, 83, 84, 85, 86, 87, 88, 89, 90]

/-- A channel of the host, reduced to what the module reads: its name and
whether mode `+U` is set on it (`chan->IsModeSet(&mode)`). -/
structure Channel where
  name : List Int
  modeU : Bool

/-- A user of the host, reduced to what the module reads: the nick, the
operator status (`IS_OPER`) and the membership list in its iteration order. -/
structure User where
  nick : List Int
  oper : Bool
  chans : List Channel

/-- Result of a hook. -/
inductive ModResult where
  | MOD_RES_PASSTHRU
  | MOD_RES_DENY
  deriving DecidableEq

/-- The numeric of a reply: the literal `609` used by the join hook, or
`ERR_CANTCHANGENICK` used by the nick hook. -/
inductive NumericCode where
  | n609
  | ERR_CANTCHANGENICK
  deriving DecidableEq

/-- One `user->WriteNumeric` call: the numeric and the arguments substituted
into the format string. -/
structure Numeric where
  code : NumericCode
  nick : List Int
  chan : List Int
  minlen : Nat
  maxcaps : Nat
  deriving DecidableEq

/-! ## The module -/

/-- The data members of `class NoAllCapsNicks` (the mode handler apart). -/
structure NoAllCapsNicks where
  maxcaps : Nat
  minlen : Nat
  capsmap : Fin 256 → Int

/-- The statement `capsmap[i] = v`. -/
def setEntry (capsmap : Fin 256 → Int) (i : Fin 256) (v : Int) : Fin 256 → Int :=
  fun j => if j = i then v else capsmap j

/-- The loop of `ReadConf` over `hmap`: `capsmap[(unsigned char)*n] = 1`. -/
def fillCapsmap (capsmap : Fin 256 → Int) : List Int → (Fin 256 → Int)
  | [] => capsmap
  | n :: rest => fillCapsmap (setEntry capsmap (ucharOf n) 1) rest

/-- The tally loop of `DenyNick`: `total += capsmap[(unsigned char)*i]`, in
`unsigned int` arithmetic. -/
def tally (capsmap : Fin 256 → Int) : List Int → Nat → Nat
  | [], total => total
  | c :: rest, total => tally capsmap rest (toU32 ((total : Int) + capsmap (ucharOf c)))

/-- The function `NoAllCapsNicks::DenyNick`. The divisor `(int)nick.length()` is
converted to `unsigned int` by the division, whose other operand is unsigned;
the result is `none` when that divisor is zero. -/
def DenyNick (self : NoAllCapsNicks) (nick : List Int) : Option Bool :=
  if nick.length ≤ self.minlen then
    some false
  else
    let total := tally self.capsmap nick 0
    let len := toU32 (nick.length : Int)
    if len = 0 then
      none
    else if (total * 100 % 4294967296) / len ≥ self.maxcaps then
      some true
    else
      some false

/-- The function `NoAllCapsNicks::ReadConf`, statement by statement: the new
members and the messages logged, in order. `MAXBUF` is the host macro, an
`int` that the comparison converts to `unsigned int`. -/
def ReadConf (MAXBUF : Int) (self : NoAllCapsNicks) (tag : ConfigTag) :
    NoAllCapsNicks × List String :=
  let s1 := { self with maxcaps := toU32 (getInt tag.maxcaps 100) }
  let s2 := { s1 with minlen := toU32 (getInt tag.minlen 4) }
  let hmap := getString tag.capsmap defaultCapsmap
  let s3 := { s2 with capsmap := fun _ => 0 }
  let s4 := { s3 with capsmap := fillCapsmap s3.capsmap hmap }
  let r5 : NoAllCapsNicks × List String :=
    if s4.maxcaps < 1 ∨ s4.maxcaps > 100 then
      ({ s4 with maxcaps := 100 },
        ["<nickcaps:maxcaps> out of range, setting to default of 100."])
    else
      (s4, [])
  if r5.1.minlen < 1 ∨ r5.1.minlen > toU32 (MAXBUF - 1) then
    ({ r5.1 with minlen := 4 },
      r5.2 ++ ["<nickcaps:minlen> out of range, setting to default of 4."])
  else
    r5

/-- The function `NoAllCapsNicks::OnRehash`. -/
def OnRehash (MAXBUF : Int) (self : NoAllCapsNicks) (tag : ConfigTag) :
    NoAllCapsNicks × List String :=
  ReadConf MAXBUF self tag

/-- The function `NoAllCapsNicks::OnUserPreJoin`: the result and the numerics
written to the user; `chan` is `none` for a null pointer. -/
def OnUserPreJoin (self : NoAllCapsNicks) (user : User) (chan : Option Channel) :
    Option (ModResult × List Numeric) :=
  match chan with
  | none => some (ModResult.MOD_RES_PASSTHRU, [])
  | some c =>
    if c.modeU then
      match DenyNick self user.nick with
      | none => none
      | some true =>
        some (ModResult.MOD_RES_DENY,
          [{ code := NumericCode.n609, nick := user.nick, chan := c.name,
             minlen := self.minlen, maxcaps := self.maxcaps }])
      | some false => some (ModResult.MOD_RES_PASSTHRU, [])
    else
      some (ModResult.MOD_RES_PASSTHRU, [])

/-- The loop of `OnUserPreNick` over the copy of `user->chans`. -/
def preNickLoop (self : NoAllCapsNicks) (user : User) (newnick : List Int) :
    List Channel → Option (ModResult × List Numeric)
  | [] => some (ModResult.MOD_RES_PASSTHRU, [])
  | c :: rest =>
    if c.modeU then
      match DenyNick self newnick with
      | none => none
      | some true =>
        some (ModResult.MOD_RES_DENY,
          [{ code := NumericCode.ERR_CANTCHANGENICK, nick := user.nick, chan := c.name,
             minlen := self.minlen, maxcaps := self.maxcaps }])
      | some false => preNickLoop self user newnick rest
    else
      preNickLoop self user newnick rest

/-- The function `NoAllCapsNicks::OnUserPreNick`. -/
def OnUserPreNick (self : NoAllCapsNicks) (user : User) (newnick : List Int) :
    Option (ModResult × List Numeric) :=
  if ¬ user.oper then
    preNickLoop self user newnick user.chans
  else
    some (ModResult.MOD_RES_PASSTHRU, [])

/-! ## Vocabulary of the specification -/

/-- The note on the member `capsmap`: each of the 256 entries is 0 or 1. -/
def CapsmapOK (capsmap : Fin 256 → Int) : Prop :=
  ∀ i : Fin 256, capsmap i = 0 ∨ capsmap i = 1

/-- The classifier of the specification: a byte counts as capital when its
entry of the map is 1. -/
def isCapital (capsmap : Fin 256 → Int) (c : Int) : Bool :=
  decide (capsmap (ucharOf c) = 1)

/-- The number of bytes of a nick whose entry of the map is 1. -/
def capsCount (capsmap : Fin 256 → Int) (nick : List Int) : Nat :=
  nick.countP (isCapital capsmap)

/-- The rejection test as the specification words it: longer than `minlen`
and the truncated percentage of capitals at least `maxcaps`. -/
def shouldReject (self : NoAllCapsNicks) (nick : List Int) : Bool :=
  decide (nick.length > self.minlen ∧
    capsCount self.capsmap nick * 100 / nick.length ≥ self.maxcaps)

/-! ## Concrete configurations used in the examples -/

/-- A module instance before its first `ReadConf`. -/
def blank : NoAllCapsNicks := { maxcaps := 0, minlen := 0, capsmap := fun _ => 0 }

/-- The configuration `minlen=4 maxcaps=50` with the default `capsmap`. -/
def tag50 : ConfigTag := { maxcaps := some 50, minlen := some 4, capsmap := none }

/-- The policy after `ReadConf` on `tag50`, with `MAXBUF = 514`. -/
def policy50 : NoAllCapsNicks := (ReadConf 514 blank tag50).1

/-- The nick `"ABCdef"`. -/
def nickABCdef : List Int := [65, 66, 67, 100, 101, 102]

/-- The nick `"ABCd"`. -/
def nickABCd : List Int := [65, 66, 67, 100]

/-- The nick `"ABCDEf"`. -/
def nickABCDEf : List Int := [65, 66, 67, 68, 69, 102]

/-- The nick `"ABCDEF"`. -/
def nickABCDEF : List Int := [65, 66, 67, 68, 69, 70]

/-- The configuration `minlen=4 maxcaps=100` with the default `capsmap`. -/
def tag100 : ConfigTag := { maxcaps := some 100, minlen := some 4, capsmap := none }

/-- The policy after `ReadConf` on `tag100`, with `MAXBUF = 514`. -/
def policy100 : NoAllCapsNicks := (ReadConf 514 blank tag100).1

/-- The configuration `minlen=4 maxcaps=50 capsmap=""`. -/
def tagEmptyMap : ConfigTag := { maxcaps := some 50, minlen := some 4, capsmap := some [] }

/-- The policy after `ReadConf` on `tagEmptyMap`, with `MAXBUF = 514`. -/
def policyEmptyMap : NoAllCapsNicks := (ReadConf 514 blank tagEmptyMap).1

/-- The configuration `maxcaps=4294967346 minlen=4294967303`, values of a
64-bit `long` that are `2^32 + 50` and `2^32 + 7`. -/
def tagWide : ConfigTag :=
  { maxcaps := some 4294967346, minlen := some 4294967303, capsmap := none }

/-- The configuration `maxcaps=150 minlen=0`. -/
def tagOutOfRange : ConfigTag := { maxcaps := some 150, minlen := some 0, capsmap := none }

/-- A nick of `2^32` bytes, all `a`. -/
def nickLower4G : List Int := List.replicate 4294967296 97

/-- A nick of 42949673 bytes, all `A`. -/
def nickCaps43M : List Int := List.replicate 42949673 65

/-- A channel with mode `+U` set. -/
def chanU : Channel := { name := [35, 117], modeU := true }

/-- A user, not an operator, whose nick is `"ABCdef"`. -/
def userABCdef : User := { nick := nickABCdef, oper := false, chans := [] }

/-- The message `ReadConf` logs when it replaces `maxcaps`. -/
def maxcapsWarning : String :=
  "<nickcaps:maxcaps> out of range, setting to default of 100."

/-- The message `ReadConf` logs when it replaces `minlen`. -/
def minlenWarning : String :=
  "<nickcaps:minlen> out of range, setting to default of 4."

/-- The first channel of a membership list, in its order, that has `+U` set. -/
def firstEnabled (chans : List Channel) : Option Channel :=
  chans.find? (fun c => c.modeU)

/-- The nick `"ALLCAPS"`. -/
def nickALLCAPS : List Int := [65, 76, 76, 67, 65, 80, 83]

/-- A channel without mode `+U`. -/
def chanPlain : Channel := { name := [35, 112], modeU := false }

/-- A second channel with mode `+U` set. -/
def chanU2 : Channel := { name := [35, 118], modeU := true }

/-- An operator on a `+U` channel. -/
def operUser : User := { nick := nickABCd, oper := true, chans := [chanU] }

/-- A user, not an operator, on a plain channel and then two `+U` channels. -/
def plainUser : User := { nick := nickABCd, oper := false, chans := [chanPlain, chanU, chanU2] }

/-- An operator whose nick is `"ALLCAPS"`. -/
def operALLCAPS : User := { nick := nickALLCAPS, oper := true, chans := [] }

/-- The single numeric that denies a rename of `plainUser` on channel `#u`
under `minlen=4 maxcaps=50`. -/
def denialOnU : List Numeric :=
  [{ code := NumericCode.ERR_CANTCHANGENICK, nick := nickABCd, chan := chanU.name,
     minlen := 4, maxcaps := 50 }]

/-- The value `ReadConf` first stores in the member `maxcaps`: the configured
value, or the default 100, converted to `unsigned int`. -/
def storedMaxcaps (tag : ConfigTag) : Nat := toU32 (getInt tag.maxcaps 100)

/-- The value `ReadConf` first stores in the member `minlen`: the configured
value, or the default 4, converted to `unsigned int`. -/
def storedMinlen (tag : ConfigTag) : Nat := toU32 (getInt tag.minlen 4)

/-- The configuration `capsmap="a"` with `minlen=4 maxcaps=50`. -/
def tagLowerA : ConfigTag := { maxcaps := some 50, minlen := some 4, capsmap := some [97] }

/-- A policy with `minlen = 0`: `maxcaps = 50`, map `A`-`Z`. -/
def policyMin0 : NoAllCapsNicks := { policy50 with minlen := 0 }

/-- A nick of `2^32` bytes, all `A`. -/
def nickCaps4G : List Int := List.replicate 4294967296 65

/-! ## Machine arithmetic -/

theorem toU32_lt (v : Int) : toU32 v < 4294967296 := by
  unfold toU32; omega

theorem toU32_natCast (n : Nat) : toU32 (n : Int) = n % 4294967296 := by
  unfold toU32; omega

theorem toU32_of_lt (n : Nat) (h : n < 4294967296) : toU32 (n : Int) = n := by
  unfold toU32; omega

/-! ## The tally loop -/

theorem capsCount_nil (cm : Fin 256 → Int) : capsCount cm [] = 0 := rfl

theorem capsCount_cons (cm : Fin 256 → Int) (c : Int) (rest : List Int) :
    capsCount cm (c :: rest) = capsCount cm rest + if cm (ucharOf c) = 1 then 1 else 0 := by
  unfold capsCount
  rw [List.countP_cons]
  simp [isCapital]

theorem capsCount_le_length (cm : Fin 256 → Int) (nick : List Int) :
    capsCount cm nick ≤ nick.length :=
  List.countP_le_length _

/-- With a 0/1 map the loop adds, modulo `2^32`, the number of capitals. -/
theorem tally_eq (cm : Fin 256 → Int) (hok : CapsmapOK cm) (nick : List Int) :
    ∀ t : Nat, t < 4294967296 →
      tally cm nick t = (t + capsCount cm nick) % 4294967296 := by
  induction nick with
  | nil =>
    intro t ht
    simp only [tally, capsCount_nil]
    omega
  | cons c rest ih =>
    intro t ht
    simp only [tally]
    rw [ih _ (toU32_lt _), capsCount_cons]
    rcases hok (ucharOf c) with h | h
    · rw [h]
      simp only [toU32]
      norm_num
      omega
    · rw [h]
      simp only [toU32]
      norm_num
      omega

/-! ## `DenyNick` -/

theorem DenyNick_short (self : NoAllCapsNicks) (nick : List Int)
    (h : nick.length ≤ self.minlen) : DenyNick self nick = some false := by
  unfold DenyNick
  rw [if_pos h]

/-- A nick longer than `minlen` whose length is a multiple of `2^32` makes the
divisor zero. -/
theorem DenyNick_zero_divisor (self : NoAllCapsNicks) (nick : List Int)
    (h : ¬ nick.length ≤ self.minlen) (hz : nick.length % 4294967296 = 0) :
    DenyNick self nick = none := by
  unfold DenyNick
  rw [if_neg h]
  simp only [toU32_natCast, hz, if_true]

/-- Without wrap-around the code computes the test of the specification. -/
theorem DenyNick_eq_shouldReject (self : NoAllCapsNicks) (nick : List Int)
    (hok : CapsmapOK self.capsmap) (hlen : nick.length < 4294967296)
    (hcnt : capsCount self.capsmap nick * 100 < 4294967296) :
    DenyNick self nick = some (shouldReject self nick) := by
  unfold DenyNick shouldReject
  by_cases h : nick.length ≤ self.minlen
  · rw [if_pos h]
    have : ¬ (nick.length > self.minlen) := by omega
    simp [this]
  · rw [if_neg h]
    have hpos : nick.length ≠ 0 := by omega
    have ht : tally self.capsmap nick 0 = capsCount self.capsmap nick := by
      rw [tally_eq _ hok _ 0 (by norm_num)]
      omega
    simp only [ht, toU32_of_lt _ hlen, if_neg hpos, Nat.mod_eq_of_lt hcnt]
    have hgt : nick.length > self.minlen := by omega
    by_cases hr : capsCount self.capsmap nick * 100 / nick.length ≥ self.maxcaps
    · simp [hr, hgt]
    · simp [hr]

/-! ## `ReadConf` -/

theorem setEntry_apply (cm : Fin 256 → Int) (i j : Fin 256) (v : Int) :
    setEntry cm i v j = if j = i then v else cm j := rfl

/-- After the loop an entry is 1 when its index occurs in the string and is
untouched otherwise. -/
theorem fillCapsmap_apply (s : List Int) :
    ∀ (cm : Fin 256 → Int) (b : Fin 256),
      fillCapsmap cm s b = if ∃ c ∈ s, ucharOf c = b then 1 else cm b := by
  induction s with
  | nil => intro cm b; simp [fillCapsmap]
  | cons n rest ih =>
    intro cm b
    simp only [fillCapsmap]
    rw [ih, setEntry_apply]
    by_cases h1 : ∃ c ∈ rest, ucharOf c = b
    · have h2 : ∃ c ∈ n :: rest, ucharOf c = b := by
        obtain ⟨c, hc, hb⟩ := h1
        exact ⟨c, List.mem_cons_of_mem _ hc, hb⟩
      rw [if_pos h1, if_pos h2]
    · rw [if_neg h1]
      by_cases h3 : b = ucharOf n
      · have h2 : ∃ c ∈ n :: rest, ucharOf c = b :=
          ⟨n, List.mem_cons_self _ _, h3.symm⟩
        rw [if_pos h3, if_pos h2]
      · have h2 : ¬ ∃ c ∈ n :: rest, ucharOf c = b := by
          rintro ⟨c, hc, hb⟩
          rcases List.mem_cons.1 hc with hc | hc
          · exact h3 (by rw [← hb, hc])
          · exact h1 ⟨c, hc, hb⟩
        rw [if_neg h3, if_neg h2]

theorem ReadConf_capsmap (MAXBUF : Int) (self : NoAllCapsNicks) (tag : ConfigTag) :
    (ReadConf MAXBUF self tag).1.capsmap =
      fillCapsmap (fun _ => 0) (getString tag.capsmap defaultCapsmap) := by
  unfold ReadConf
  simp only []
  split_ifs <;> rfl

theorem ReadConf_maxcaps (MAXBUF : Int) (self : NoAllCapsNicks) (tag : ConfigTag) :
    (ReadConf MAXBUF self tag).1.maxcaps =
      if toU32 (getInt tag.maxcaps 100) < 1 ∨ toU32 (getInt tag.maxcaps 100) > 100
      then 100 else toU32 (getInt tag.maxcaps 100) := by
  unfold ReadConf
  simp only []
  split_ifs <;> rfl

theorem ReadConf_minlen (MAXBUF : Int) (self : NoAllCapsNicks) (tag : ConfigTag) :
    (ReadConf MAXBUF self tag).1.minlen =
      if toU32 (getInt tag.minlen 4) < 1 ∨ toU32 (getInt tag.minlen 4) > toU32 (MAXBUF - 1)
      then 4 else toU32 (getInt tag.minlen 4) := by
  unfold ReadConf
  simp only []
  split_ifs <;> rfl

theorem ReadConf_capsmap_apply (MAXBUF : Int) (self : NoAllCapsNicks) (tag : ConfigTag)
    (b : Fin 256) :
    (ReadConf MAXBUF self tag).1.capsmap b =
      if ∃ c ∈ getString tag.capsmap defaultCapsmap, ucharOf c = b then 1 else 0 := by
  rw [ReadConf_capsmap, fillCapsmap_apply]

theorem ReadConf_capsmapOK (MAXBUF : Int) (self : NoAllCapsNicks) (tag : ConfigTag) :
    CapsmapOK (ReadConf MAXBUF self tag).1.capsmap := by
  intro i
  rw [ReadConf_capsmap_apply]
  split_ifs
  · exact Or.inr rfl
  · exact Or.inl rfl

theorem ReadConf_maxcaps_range (MAXBUF : Int) (self : NoAllCapsNicks) (tag : ConfigTag) :
    1 ≤ (ReadConf MAXBUF self tag).1.maxcaps ∧ (ReadConf MAXBUF self tag).1.maxcaps ≤ 100 := by
  rw [ReadConf_maxcaps]
  split_ifs with h
  · omega
  · omega

/-! ## `DenyNick` with a 0/1 map, wrap-around included -/

/-- What `DenyNick` computes for a 0/1 map, every reduction modulo `2^32`
spelled out. -/
theorem DenyNick_of_ok (self : NoAllCapsNicks) (nick : List Int)
    (hok : CapsmapOK self.capsmap) :
    DenyNick self nick =
      if nick.length ≤ self.minlen then some false
      else if nick.length % 4294967296 = 0 then none
      else if capsCount self.capsmap nick % 4294967296 * 100 % 4294967296
                / (nick.length % 4294967296) ≥ self.maxcaps then some true
      else some false := by
  unfold DenyNick
  have ht : tally self.capsmap nick 0 = capsCount self.capsmap nick % 4294967296 := by
    rw [tally_eq _ hok _ 0 (by norm_num), Nat.zero_add]
  simp only [ht, toU32_natCast]

theorem ratio_ge_100_iff (count len : Nat) (hpos : 0 < len) (hle : count ≤ len) :
    count * 100 / len ≥ 100 ↔ count = len := by
  rw [ge_iff_le, Nat.le_div_iff_mul_le hpos]
  omega

theorem capsCount_eq_zero (cm : Fin 256 → Int) (nick : List Int)
    (h : ∀ c ∈ nick, isCapital cm c = false) : capsCount cm nick = 0 := by
  unfold capsCount
  rw [List.countP_eq_zero]
  intro c hc
  simp [h c hc]

/-! ## Claims on `DenyNick` -/

/-- C1: for a map whose entries are 0 or 1 and a nick short enough that
`count * 100` does not wrap 32 bits, `DenyNick` returns, and returns true
exactly when the nick is longer than `minlen` and the truncated quotient
`count * 100 / length` is at least `maxcaps`. -/
theorem C1_DenyNick_iff_ratio (self : NoAllCapsNicks) (nick : List Int)
    (hok : CapsmapOK self.capsmap) (hlen : nick.length < 4294967296)
    (hcnt : capsCount self.capsmap nick * 100 < 4294967296) :
    (DenyNick self nick = some true ↔
      (nick.length > self.minlen ∧
        capsCount self.capsmap nick * 100 / nick.length ≥ self.maxcaps)) ∧
    (DenyNick self nick = some false ↔
      ¬ (nick.length > self.minlen ∧
        capsCount self.capsmap nick * 100 / nick.length ≥ self.maxcaps)) := by
  rw [DenyNick_eq_shouldReject self nick hok hlen hcnt]
  unfold shouldReject
  constructor <;> simp

/-- C1 at `minlen=4 maxcaps=50`, map `A`-`Z`, nick `"ABCdef"`: rejected, since
`3 * 100 / 6 = 50`. -/
theorem C1_DenyNick_iff_ratio_witness :
    DenyNick policy50 nickABCdef = some true ∧
      capsCount policy50.capsmap nickABCdef * 100 / nickABCdef.length = 50 :=
  ⟨(C1_DenyNick_iff_ratio policy50 nickABCdef (ReadConf_capsmapOK 514 blank tag50)
      (by decide) (by decide)).1.2 (by decide), by decide⟩

/-- C2: a nick no longer than `minlen` is accepted, whatever its content, the
map and `maxcaps`. -/
theorem C2_DenyNick_short_accepts (self : NoAllCapsNicks) (nick : List Int)
    (h : nick.length ≤ self.minlen) : DenyNick self nick = some false :=
  DenyNick_short self nick h

/-- C2 at `minlen=4 maxcaps=50`, map `A`-`Z`, nick `"ABCd"`. -/
theorem C2_DenyNick_short_accepts_witness :
    nickABCd.length ≤ policy50.minlen ∧ DenyNick policy50 nickABCd = some false :=
  ⟨by decide, C2_DenyNick_short_accepts policy50 nickABCd (by decide)⟩

/-- C3 as stated fails: with `minlen=4 maxcaps=50`, map `A`-`Z`, the nick of
`2^32` bytes `a` has no capital, and `DenyNick` divides by zero instead of
returning false. -/
theorem C3_counterexample :
    (1 ≤ policy50.maxcaps ∧ policy50.maxcaps ≤ 100) ∧
    CapsmapOK policy50.capsmap ∧
    (∀ c ∈ nickLower4G, isCapital policy50.capsmap c = false) ∧
    DenyNick policy50 nickLower4G = none ∧
    DenyNick policy50 nickLower4G ≠ some false := by
  have hmin : policy50.minlen = 4 := by decide
  have hlen : nickLower4G.length = 4294967296 := List.length_replicate _ _
  have hnone : DenyNick policy50 nickLower4G = none := by
    apply DenyNick_zero_divisor
    · rw [hlen, hmin]; norm_num
    · rw [hlen]
  refine ⟨by decide, ReadConf_capsmapOK 514 blank tag50, ?_, hnone, ?_⟩
  · intro c hc
    rw [List.eq_of_mem_replicate hc]
    decide
  · rw [hnone]; exact fun h => Option.noConfusion h

/-- C3, amended: with `1 ≤ maxcaps ≤ 100` and a 0/1 map, a nick shorter than
`2^32` bytes none of whose bytes is classified as capital is accepted. -/
theorem C3_DenyNick_no_capital_accepts (self : NoAllCapsNicks) (nick : List Int)
    (hmax : 1 ≤ self.maxcaps ∧ self.maxcaps ≤ 100) (hok : CapsmapOK self.capsmap)
    (hnocap : ∀ c ∈ nick, isCapital self.capsmap c = false)
    (hlen : nick.length < 4294967296) :
    DenyNick self nick = some false := by
  have hz := capsCount_eq_zero self.capsmap nick hnocap
  rw [DenyNick_eq_shouldReject self nick hok hlen (by rw [hz]; norm_num)]
  unfold shouldReject
  rw [hz]
  have : ¬ (self.maxcaps ≤ 0) := by omega
  simp [this]

/-- C3, amended, at `minlen=4 maxcaps=50`, map `A`-`Z`, nick `"abcdef"`. -/
theorem C3_DenyNick_no_capital_accepts_witness :
    DenyNick policy50 [97, 98, 99, 100, 101, 102] = some false :=
  C3_DenyNick_no_capital_accepts policy50 [97, 98, 99, 100, 101, 102]
    (by decide) (ReadConf_capsmapOK 514 blank tag50) (by decide) (by decide)

/-- C4 as stated fails: with `minlen=4 maxcaps=100`, map `A`-`Z`, the nick of
42949673 bytes `A` has `count * 100 = maxcaps * L`, yet `count * 100` wraps to
4 and `DenyNick` returns false. -/
theorem C4_counterexample :
    CapsmapOK policy100.capsmap ∧
    nickCaps43M.length > policy100.minlen ∧
    capsCount policy100.capsmap nickCaps43M * 100 =
      policy100.maxcaps * nickCaps43M.length ∧
    DenyNick policy100 nickCaps43M = some false := by
  have hok : CapsmapOK policy100.capsmap := ReadConf_capsmapOK 514 blank tag100
  have hmin : policy100.minlen = 4 := by decide
  have hmax : policy100.maxcaps = 100 := by decide
  have hlen : nickCaps43M.length = 42949673 := List.length_replicate _ _
  have hcap : isCapital policy100.capsmap 65 = true := by decide
  have hcount : capsCount policy100.capsmap nickCaps43M = 42949673 := by
    unfold capsCount nickCaps43M
    rw [List.countP_replicate, if_pos hcap]
  refine ⟨hok, ?_, ?_, ?_⟩
  · rw [hlen, hmin]; norm_num
  · rw [hlen, hmax, hcount]
  · rw [DenyNick_of_ok _ _ hok, hlen, hcount, hmin, hmax]
    decide

/-- C4, amended: the boundary is inclusive for a nick short enough that
`count * 100` does not wrap 32 bits. With a 0/1 map, a nick of length
`L > minlen`, `L < 2^32`, whose count satisfies `count * 100 < 2^32` and
`count * 100 = maxcaps * L` is rejected. -/
theorem C4_DenyNick_boundary_inclusive (self : NoAllCapsNicks) (nick : List Int)
    (hok : CapsmapOK self.capsmap) (hgt : nick.length > self.minlen)
    (hlen : nick.length < 4294967296)
    (hcnt : capsCount self.capsmap nick * 100 < 4294967296)
    (heq : capsCount self.capsmap nick * 100 = self.maxcaps * nick.length) :
    DenyNick self nick = some true := by
  rw [DenyNick_eq_shouldReject self nick hok hlen hcnt]
  unfold shouldReject
  have hpos : 0 < nick.length := by omega
  rw [heq, Nat.mul_div_cancel _ hpos]
  simp [hgt]

/-- C4, amended, at `minlen=4 maxcaps=50`, map `A`-`Z`, nick `"ABCdef"`:
`300 = 50 * 6`, rejected. -/
theorem C4_DenyNick_boundary_inclusive_witness :
    capsCount policy50.capsmap nickABCdef * 100 = policy50.maxcaps * nickABCdef.length ∧
    DenyNick policy50 nickABCdef = some true :=
  ⟨by decide,
    C4_DenyNick_boundary_inclusive policy50 nickABCdef (ReadConf_capsmapOK 514 blank tag50)
      (by decide) (by decide) (by decide) (by decide)⟩

/-- C5: after `ReadConf` with an effective `maxcaps` of 100, for a nick short
enough that `count * 100` does not wrap 32 bits, `DenyNick` returns, and
returns true exactly when the nick is longer than `minlen` and every byte is
classified as capital; a nick with a byte that is not classified is accepted. -/
theorem C5_DenyNick_maxcaps_100 (MAXBUF : Int) (self : NoAllCapsNicks) (tag : ConfigTag)
    (nick : List Int)
    (h100 : (ReadConf MAXBUF self tag).1.maxcaps = 100)
    (hlen : nick.length < 4294967296)
    (hcnt : capsCount (ReadConf MAXBUF self tag).1.capsmap nick * 100 < 4294967296) :
    (DenyNick (ReadConf MAXBUF self tag).1 nick = some true ↔
      (nick.length > (ReadConf MAXBUF self tag).1.minlen ∧
        ∀ c ∈ nick, isCapital (ReadConf MAXBUF self tag).1.capsmap c = true)) ∧
    (DenyNick (ReadConf MAXBUF self tag).1 nick = some false ↔
      ¬ (nick.length > (ReadConf MAXBUF self tag).1.minlen ∧
        ∀ c ∈ nick, isCapital (ReadConf MAXBUF self tag).1.capsmap c = true)) ∧
    ((∃ c ∈ nick, isCapital (ReadConf MAXBUF self tag).1.capsmap c = false) →
      DenyNick (ReadConf MAXBUF self tag).1 nick = some false) := by
  have hok := ReadConf_capsmapOK MAXBUF self tag
  generalize (ReadConf MAXBUF self tag).1 = p at *
  have hkey : shouldReject p nick =
      decide (nick.length > p.minlen ∧ ∀ c ∈ nick, isCapital p.capsmap c = true) := by
    unfold shouldReject
    by_cases hgt : nick.length > p.minlen
    · have hpos : 0 < nick.length := by omega
      have hiff := ratio_ge_100_iff (capsCount p.capsmap nick) nick.length hpos
        (capsCount_le_length _ _)
      have hall : capsCount p.capsmap nick = nick.length ↔
          ∀ c ∈ nick, isCapital p.capsmap c = true := by
        unfold capsCount
        exact List.countP_eq_length
      rw [h100]
      simp only [hgt, true_and, hiff, hall]
    · simp [hgt]
  rw [DenyNick_eq_shouldReject p nick hok hlen hcnt, hkey]
  refine ⟨by simp, by simp, ?_⟩
  rintro ⟨c, hc, hfalse⟩
  have : ¬ (nick.length > p.minlen ∧ ∀ c ∈ nick, isCapital p.capsmap c = true) := by
    rintro ⟨_, hall⟩
    rw [hall c hc] at hfalse
    exact Bool.noConfusion hfalse
  simp [this]

/-- C5 at `minlen=4 maxcaps=100`, map `A`-`Z`: `"ABCDEf"` is accepted and
`"ABCDEF"` is rejected. -/
theorem C5_DenyNick_maxcaps_100_witness :
    DenyNick policy100 nickABCDEf = some false ∧
    DenyNick policy100 nickABCDEF = some true :=
  ⟨(C5_DenyNick_maxcaps_100 514 blank tag100 nickABCDEf (by decide) (by decide)
      (by decide)).2.2 ⟨102, by decide, by decide⟩,
   (C5_DenyNick_maxcaps_100 514 blank tag100 nickABCDEF (by decide) (by decide)
      (by decide)).1.2 ⟨by decide, by decide⟩⟩

/-! ## Claims on `ReadConf` -/

/-- A configured `maxcaps` that fits a 32-bit `int` is kept when it lies in
`1..100` and replaced by 100 otherwise. -/
theorem ReadConf_maxcaps_int32 (MAXBUF : Int) (self : NoAllCapsNicks)
    (ml : Option Int) (s : Option (List Int)) (v : Int)
    (hlo : -2147483648 ≤ v) (hhi : v < 2147483648) :
    ((ReadConf MAXBUF self { maxcaps := some v, minlen := ml, capsmap := s }).1.maxcaps : Int) =
      if 1 ≤ v ∧ v ≤ 100 then v else 100 := by
  rw [ReadConf_maxcaps]
  simp only [getInt, Option.getD_some, toU32]
  split_ifs <;> omega

/-- A configured `minlen` that fits a 32-bit `int` is kept when it lies in
`1..MAXBUF-1` and replaced by 4 otherwise, for a positive `int` `MAXBUF`. -/
theorem ReadConf_minlen_int32 (MAXBUF : Int) (self : NoAllCapsNicks)
    (mc : Option Int) (s : Option (List Int)) (v : Int)
    (hM : 1 ≤ MAXBUF ∧ MAXBUF < 2147483648)
    (hlo : -2147483648 ≤ v) (hhi : v < 2147483648) :
    ((ReadConf MAXBUF self { maxcaps := mc, minlen := some v, capsmap := s }).1.minlen : Int) =
      if 1 ≤ v ∧ v ≤ MAXBUF - 1 then v else 4 := by
  rw [ReadConf_minlen]
  simp only [getInt, Option.getD_some, toU32]
  split_ifs <;> omega

/-- C6, the code at the failing input: the configured values
`maxcaps = 2^32 + 50` and `minlen = 2^32 + 7` lie outside `1..100` and
`1..MAXBUF-1`, yet the effective values are 50 and 7, not 100 and 4, and
nothing is logged; `maxcaps=150 minlen=0` gives 100 and 4. -/
theorem C6_ReadConf_wide_values_not_clamped :
    (ReadConf 514 blank tagWide).1.maxcaps = 50 ∧
    (ReadConf 514 blank tagWide).1.minlen = 7 ∧
    (ReadConf 514 blank tagWide).2 = [] ∧
    (ReadConf 514 blank tagOutOfRange).1.maxcaps = 100 ∧
    (ReadConf 514 blank tagOutOfRange).1.minlen = 4 := by
  decide

theorem tally_le_length (cm : Fin 256 → Int) (hok : CapsmapOK cm) (nick : List Int) :
    tally cm nick 0 ≤ nick.length := by
  rw [tally_eq cm hok nick 0 (by norm_num), Nat.zero_add]
  exact le_trans (Nat.mod_le _ _) (capsCount_le_length cm nick)

/-- C7: after `ReadConf`, whatever the configuration supplies, `maxcaps` is in
`1..100`, `minlen` is in `1..MAXBUF-1`, every entry of the map is 0 or 1, and
the tally of a nick is at most its length. `MAXBUF` is the host macro, at
least 5 and within 32 bits. -/
theorem C7_ReadConf_invariant (MAXBUF : Int) (self : NoAllCapsNicks) (tag : ConfigTag)
    (hM : 5 ≤ MAXBUF ∧ MAXBUF ≤ 4294967296) :
    (1 ≤ (ReadConf MAXBUF self tag).1.maxcaps ∧
      (ReadConf MAXBUF self tag).1.maxcaps ≤ 100) ∧
    (1 ≤ (ReadConf MAXBUF self tag).1.minlen ∧
      ((ReadConf MAXBUF self tag).1.minlen : Int) ≤ MAXBUF - 1) ∧
    CapsmapOK (ReadConf MAXBUF self tag).1.capsmap ∧
    ∀ nick : List Int,
      tally (ReadConf MAXBUF self tag).1.capsmap nick 0 ≤ nick.length := by
  refine ⟨ReadConf_maxcaps_range MAXBUF self tag, ?_, ReadConf_capsmapOK MAXBUF self tag,
    fun nick => tally_le_length _ (ReadConf_capsmapOK MAXBUF self tag) nick⟩
  rw [ReadConf_minlen]
  have hb : toU32 (MAXBUF - 1) = (MAXBUF - 1).toNat := by
    unfold toU32; omega
  rw [hb]
  split_ifs with h
  · constructor
    · norm_num
    · push_cast; omega
  · constructor
    · omega
    · omega

/-- C7 at `MAXBUF = 514` for the out-of-range configuration
`maxcaps=150 minlen=0`. -/
theorem C7_ReadConf_invariant_witness :
    (1 ≤ (ReadConf 514 blank tagOutOfRange).1.maxcaps ∧
      (ReadConf 514 blank tagOutOfRange).1.maxcaps ≤ 100) ∧
    (1 ≤ (ReadConf 514 blank tagOutOfRange).1.minlen ∧
      ((ReadConf 514 blank tagOutOfRange).1.minlen : Int) ≤ 514 - 1) ∧
    CapsmapOK (ReadConf 514 blank tagOutOfRange).1.capsmap ∧
    ∀ nick : List Int,
      tally (ReadConf 514 blank tagOutOfRange).1.capsmap nick 0 ≤ nick.length :=
  C7_ReadConf_invariant 514 blank tagOutOfRange (by decide)

/-- C8: after `ReadConf` builds the map from the configured string `s`, the
entry of a byte `b` is 1 exactly when `b` occurs in `s`, and 0 exactly when
it does not. -/
theorem C8_capsmap_membership (MAXBUF : Int) (self : NoAllCapsNicks)
    (mc ml : Option Int) (s : List Int) (b : Fin 256) :
    ((ReadConf MAXBUF self { maxcaps := mc, minlen := ml, capsmap := some s }).1.capsmap b = 1 ↔
      ∃ c ∈ s, ucharOf c = b) ∧
    ((ReadConf MAXBUF self { maxcaps := mc, minlen := ml, capsmap := some s }).1.capsmap b = 0 ↔
      ¬ ∃ c ∈ s, ucharOf c = b) := by
  rw [ReadConf_capsmap_apply]
  simp only [getString, Option.getD_some]
  split_ifs with h
  · simp [h]
  · simp [h]

theorem ReadConf_empty_capsmap (MAXBUF : Int) (self : NoAllCapsNicks)
    (mc ml : Option Int) (b : Fin 256) :
    (ReadConf MAXBUF self { maxcaps := mc, minlen := ml, capsmap := some [] }).1.capsmap b = 0 := by
  rw [ReadConf_capsmap_apply]
  simp [getString]

/-- C9 as stated fails: with `capsmap=""`, `minlen=4`, `maxcaps=50`, the nick
of `2^32` bytes `a` makes `DenyNick` divide by zero instead of returning
false. -/
theorem C9_counterexample :
    tagEmptyMap.capsmap = some [] ∧
    DenyNick (ReadConf 514 blank tagEmptyMap).1 nickLower4G = none ∧
    DenyNick (ReadConf 514 blank tagEmptyMap).1 nickLower4G ≠ some false := by
  have hmin : (ReadConf 514 blank tagEmptyMap).1.minlen = 4 := by decide
  have hlen : nickLower4G.length = 4294967296 := List.length_replicate _ _
  have hnone : DenyNick (ReadConf 514 blank tagEmptyMap).1 nickLower4G = none := by
    apply DenyNick_zero_divisor
    · rw [hlen, hmin]; norm_num
    · rw [hlen]
  refine ⟨rfl, hnone, ?_⟩
  rw [hnone]
  exact fun h => Option.noConfusion h

/-- C9, amended: when the configured `capsmap` string is empty, after
`ReadConf` every entry of the map is 0, no byte is classified as capital, the
tally of every nick is 0, and `DenyNick` returns false for every nick shorter
than `2^32` bytes, for every configured `maxcaps` and `minlen`. -/
theorem C9_empty_capsmap_accepts (MAXBUF : Int) (self : NoAllCapsNicks)
    (mc ml : Option Int) (nick : List Int) (hlen : nick.length < 4294967296) :
    (∀ b : Fin 256,
      (ReadConf MAXBUF self { maxcaps := mc, minlen := ml, capsmap := some [] }).1.capsmap b
        = 0) ∧
    (∀ c : Int,
      isCapital (ReadConf MAXBUF self { maxcaps := mc, minlen := ml, capsmap := some [] }).1.capsmap
        c = false) ∧
    (∀ n : List Int,
      tally (ReadConf MAXBUF self { maxcaps := mc, minlen := ml, capsmap := some [] }).1.capsmap
        n 0 = 0) ∧
    DenyNick (ReadConf MAXBUF self { maxcaps := mc, minlen := ml, capsmap := some [] }).1 nick
      = some false := by
  have hzero := ReadConf_empty_capsmap MAXBUF self mc ml
  have hok := ReadConf_capsmapOK MAXBUF self { maxcaps := mc, minlen := ml, capsmap := some [] }
  have hrange := ReadConf_maxcaps_range MAXBUF self
    { maxcaps := mc, minlen := ml, capsmap := some [] }
  generalize (ReadConf MAXBUF self { maxcaps := mc, minlen := ml, capsmap := some [] }).1 = p at *
  have hcap : ∀ c : Int, isCapital p.capsmap c = false := by
    intro c
    simp [isCapital, hzero]
  have hcount : ∀ n : List Int, capsCount p.capsmap n = 0 :=
    fun n => capsCount_eq_zero p.capsmap n (fun c _ => hcap c)
  refine ⟨hzero, hcap, ?_, ?_⟩
  · intro n
    rw [tally_eq p.capsmap hok n 0 (by norm_num), hcount n]
  · rw [DenyNick_eq_shouldReject p nick hok hlen (by rw [hcount nick]; norm_num)]
    unfold shouldReject
    rw [hcount nick]
    have : ¬ (p.maxcaps ≤ 0) := by omega
    simp [this]

/-- C9, amended, at `capsmap=""`, `minlen=4`, `maxcaps=50`, nick `"ABCDEF"`. -/
theorem C9_empty_capsmap_accepts_witness :
    tally policyEmptyMap.capsmap nickABCDEF 0 = 0 ∧
    DenyNick policyEmptyMap nickABCDEF = some false :=
  ⟨(C9_empty_capsmap_accepts 514 blank (some 50) (some 4) nickABCDEF (by decide)).2.2.1
      nickABCDEF,
   (C9_empty_capsmap_accepts 514 blank (some 50) (some 4) nickABCDEF (by decide)).2.2.2⟩

/-! ## Claims on the hooks -/

/-- C10: `OnUserPreJoin` returns Deny exactly when the channel exists, has
`+U` set and `DenyNick` rejects the user's nick; it returns Pass, writing
nothing, exactly when the channel does not exist yet, or `+U` is not set, or
`DenyNick` accepts the nick. -/
theorem C10_OnUserPreJoin_deny_iff (self : NoAllCapsNicks) (user : User)
    (chan : Option Channel) :
    ((∃ out, OnUserPreJoin self user chan = some (ModResult.MOD_RES_DENY, out)) ↔
      ∃ c, chan = some c ∧ c.modeU = true ∧ DenyNick self user.nick = some true) ∧
    (OnUserPreJoin self user chan = some (ModResult.MOD_RES_PASSTHRU, []) ↔
      (chan = none ∨
        ∃ c, chan = some c ∧ (c.modeU = false ∨ DenyNick self user.nick = some false))) ∧
    ((∃ out, OnUserPreJoin self user chan = some (ModResult.MOD_RES_PASSTHRU, out)) ↔
      OnUserPreJoin self user chan = some (ModResult.MOD_RES_PASSTHRU, [])) := by
  unfold OnUserPreJoin
  cases chan with
  | none => simp
  | some c =>
    obtain ⟨name, m⟩ := c
    cases m with
    | false => simp
    | true =>
      cases hd : DenyNick self user.nick with
      | none => simp
      | some r =>
        cases r with
        | true => simp
        | false => simp

/-- The join hook on a concrete case: `"ABCdef"` joining a `+U` channel under
`minlen=4 maxcaps=50` is denied with numeric 609 naming the channel and both
thresholds; with no channel yet the join passes. -/
theorem OnUserPreJoin_examples :
    OnUserPreJoin policy50 userABCdef (some chanU) =
      some (ModResult.MOD_RES_DENY,
        [{ code := NumericCode.n609, nick := nickABCdef, chan := chanU.name,
           minlen := 4, maxcaps := 50 }]) ∧
    OnUserPreJoin policy50 userABCdef none = some (ModResult.MOD_RES_PASSTHRU, []) := by
  decide

/-! ## The nick hook -/

theorem preNickLoop_no_enabled (self : NoAllCapsNicks) (user : User) (newnick : List Int)
    (chans : List Channel) (h : ∀ c ∈ chans, c.modeU = false) :
    preNickLoop self user newnick chans = some (ModResult.MOD_RES_PASSTHRU, []) := by
  induction chans with
  | nil => rfl
  | cons c rest ih =>
    have hc : c.modeU = false := h c (List.mem_cons_self _ _)
    have hrest : ∀ x ∈ rest, x.modeU = false := fun x hx => h x (List.mem_cons_of_mem _ hx)
    simp only [preNickLoop, hc]
    exact ih hrest

theorem preNickLoop_accepted (self : NoAllCapsNicks) (user : User) (newnick : List Int)
    (chans : List Channel) (h : DenyNick self newnick = some false) :
    preNickLoop self user newnick chans = some (ModResult.MOD_RES_PASSTHRU, []) := by
  induction chans with
  | nil => rfl
  | cons c rest ih =>
    simp only [preNickLoop, h]
    split_ifs <;> exact ih

/-- The loop stops at the first channel with `+U` set: its outcome is decided
by that channel alone. -/
theorem preNickLoop_eq (self : NoAllCapsNicks) (user : User) (newnick : List Int)
    (chans : List Channel) :
    preNickLoop self user newnick chans =
      match firstEnabled chans with
      | none => some (ModResult.MOD_RES_PASSTHRU, [])
      | some c =>
        match DenyNick self newnick with
        | none => none
        | some true =>
          some (ModResult.MOD_RES_DENY,
            [{ code := NumericCode.ERR_CANTCHANGENICK, nick := user.nick, chan := c.name,
               minlen := self.minlen, maxcaps := self.maxcaps }])
        | some false => some (ModResult.MOD_RES_PASSTHRU, []) := by
  induction chans with
  | nil => rfl
  | cons c rest ih =>
    unfold firstEnabled at ih ⊢
    cases hm : c.modeU with
    | false =>
      simp only [preNickLoop, hm, List.find?_cons]
      exact ih
    | true =>
      simp only [preNickLoop, hm, List.find?_cons]
      cases hd : DenyNick self newnick with
      | none => simp
      | some r =>
        cases r with
        | true => simp
        | false =>
          simp only [if_true]
          exact preNickLoop_accepted self user newnick rest hd

theorem firstEnabled_eq_none (chans : List Channel) :
    firstEnabled chans = none ↔ ∀ c ∈ chans, c.modeU = false := by
  unfold firstEnabled
  rw [List.find?_eq_none]
  simp

theorem firstEnabled_isSome (chans : List Channel) :
    (∃ c, firstEnabled chans = some c) ↔ ∃ c ∈ chans, c.modeU = true := by
  constructor
  · rintro ⟨c, hc⟩
    unfold firstEnabled at hc
    exact ⟨c, List.mem_of_find?_eq_some hc, by simpa using List.find?_some hc⟩
  · rintro ⟨c, hc, hm⟩
    cases hf : firstEnabled chans with
    | some d => exact ⟨d, rfl⟩
    | none =>
      rw [firstEnabled_eq_none] at hf
      rw [hf c hc] at hm
      exact Bool.noConfusion hm

theorem firstEnabled_split (chans : List Channel) (c : Channel)
    (h : firstEnabled chans = some c) :
    c.modeU = true ∧
      ∃ before after, chans = before ++ c :: after ∧ ∀ x ∈ before, x.modeU = false := by
  unfold firstEnabled at h
  rw [List.find?_eq_some] at h
  obtain ⟨hc, before, after, hsplit, hbefore⟩ := h
  refine ⟨hc, before, after, hsplit, ?_⟩
  intro x hx
  simpa using hbefore x hx

/-! ## Claims on the nick hook -/

/-- C11: for an operator `OnUserPreNick` returns Pass and writes nothing,
whatever the proposed nick, the membership list and the policy. -/
theorem C11_OnUserPreNick_oper_pass (self : NoAllCapsNicks) (user : User)
    (newnick : List Int) (h : user.oper = true) :
    OnUserPreNick self user newnick = some (ModResult.MOD_RES_PASSTHRU, []) := by
  unfold OnUserPreNick
  simp [h]

/-- C11 at `minlen=4 maxcaps=50`, map `A`-`Z`: an operator on a `+U` channel
renames to `"ALLCAPS"`, which `DenyNick` rejects, and the rename passes. -/
theorem C11_OnUserPreNick_oper_pass_witness :
    (∃ c ∈ operUser.chans, c.modeU = true) ∧
    DenyNick policy50 nickALLCAPS = some true ∧
    OnUserPreNick policy50 operUser nickALLCAPS = some (ModResult.MOD_RES_PASSTHRU, []) :=
  ⟨⟨chanU, List.mem_cons_self _ _, rfl⟩, by decide,
    C11_OnUserPreNick_oper_pass policy50 operUser nickALLCAPS rfl⟩

/-- C12: for a user who is not an operator, `OnUserPreNick` returns Deny
exactly when some channel of the membership list has `+U` set and `DenyNick`
rejects the proposed nick; it returns Pass, writing nothing, exactly when no
channel of the list has `+U` set (an empty list included) or `DenyNick`
accepts the nick. -/
theorem C12_OnUserPreNick_deny_iff (self : NoAllCapsNicks) (user : User)
    (newnick : List Int) (h : user.oper = false) :
    ((∃ out, OnUserPreNick self user newnick = some (ModResult.MOD_RES_DENY, out)) ↔
      ((∃ c ∈ user.chans, c.modeU = true) ∧ DenyNick self newnick = some true)) ∧
    (OnUserPreNick self user newnick = some (ModResult.MOD_RES_PASSTHRU, []) ↔
      ((∀ c ∈ user.chans, c.modeU = false) ∨ DenyNick self newnick = some false)) ∧
    ((∃ out, OnUserPreNick self user newnick = some (ModResult.MOD_RES_PASSTHRU, out)) ↔
      OnUserPreNick self user newnick = some (ModResult.MOD_RES_PASSTHRU, [])) := by
  have hloop : OnUserPreNick self user newnick =
      preNickLoop self user newnick user.chans := by
    unfold OnUserPreNick
    simp [h]
  rw [hloop, preNickLoop_eq, ← firstEnabled_isSome, ← firstEnabled_eq_none]
  cases hf : firstEnabled user.chans with
  | none => simp
  | some c =>
    cases hd : DenyNick self newnick with
    | none => simp
    | some r =>
      cases r with
      | true => simp
      | false => simp

/-- C12 at `minlen=4 maxcaps=50`, map `A`-`Z`: a user on a plain channel and
two `+U` channels is denied the rename to `"ALLCAPS"` and allowed the rename
to `"ABCd"`. -/
theorem C12_OnUserPreNick_deny_iff_witness :
    (∃ out, OnUserPreNick policy50 plainUser nickALLCAPS =
      some (ModResult.MOD_RES_DENY, out)) ∧
    OnUserPreNick policy50 plainUser nickABCd = some (ModResult.MOD_RES_PASSTHRU, []) :=
  ⟨(C12_OnUserPreNick_deny_iff policy50 plainUser nickALLCAPS rfl).1.2
      ⟨⟨chanU, List.mem_cons_of_mem _ (List.mem_cons_self _ _), rfl⟩, by decide⟩,
   (C12_OnUserPreNick_deny_iff policy50 plainUser nickABCd rfl).2.1.2
      (Or.inr (by decide))⟩

/-- C13: when `OnUserPreNick` denies a rename it writes exactly one numeric,
`ERR_CANTCHANGENICK`, and the channel it names is the first channel of the
membership list, in its order, that has `+U` set: every channel before it
has the flag unset, and no channel after it is reported. -/
theorem C13_OnUserPreNick_first_channel (self : NoAllCapsNicks) (user : User)
    (newnick : List Int) (out : List Numeric)
    (h : OnUserPreNick self user newnick = some (ModResult.MOD_RES_DENY, out)) :
    ∃ c before after,
      user.chans = before ++ c :: after ∧
      (∀ x ∈ before, x.modeU = false) ∧
      c.modeU = true ∧
      firstEnabled user.chans = some c ∧
      out = [{ code := NumericCode.ERR_CANTCHANGENICK, nick := user.nick, chan := c.name,
               minlen := self.minlen, maxcaps := self.maxcaps }] ∧
      out.length = 1 := by
  unfold OnUserPreNick at h
  cases ho : user.oper with
  | true => simp [ho] at h
  | false =>
    simp only [ho, Bool.false_eq_true, not_false_eq_true, if_true] at h
    rw [preNickLoop_eq] at h
    cases hf : firstEnabled user.chans with
    | none => simp [hf] at h
    | some c =>
      obtain ⟨hc, before, after, hsplit, hbefore⟩ := firstEnabled_split user.chans c hf
      refine ⟨c, before, after, hsplit, hbefore, hc, rfl, ?_⟩
      rw [hf] at h
      cases hd : DenyNick self newnick with
      | none => simp [hd] at h
      | some r =>
        cases r with
        | false => simp [hd] at h
        | true =>
          simp [hd] at h
          subst h
          exact ⟨rfl, rfl⟩

/-- C13 at `minlen=4 maxcaps=50`, map `A`-`Z`: the user is on a plain channel
`#p`, then the `+U` channels `#u` and `#v`; the denial of the rename to
`"ALLCAPS"` is one numeric naming `#u`. -/
theorem C13_OnUserPreNick_first_channel_witness :
    OnUserPreNick policy50 plainUser nickALLCAPS =
      some (ModResult.MOD_RES_DENY, denialOnU) ∧
    ∃ c before after,
      plainUser.chans = before ++ c :: after ∧
      (∀ x ∈ before, x.modeU = false) ∧
      c.modeU = true ∧
      firstEnabled plainUser.chans = some c ∧
      denialOnU =
        [{ code := NumericCode.ERR_CANTCHANGENICK, nick := plainUser.nick, chan := c.name,
           minlen := policy50.minlen, maxcaps := policy50.maxcaps }] ∧
      denialOnU.length = 1 :=
  ⟨by decide,
    C13_OnUserPreNick_first_channel policy50 plainUser nickALLCAPS denialOnU (by decide)⟩

/-! ## Claims on the reload -/

theorem ReadConf_logs (MAXBUF : Int) (self : NoAllCapsNicks) (tag : ConfigTag) :
    (ReadConf MAXBUF self tag).2 =
      (if toU32 (getInt tag.maxcaps 100) < 1 ∨ toU32 (getInt tag.maxcaps 100) > 100
        then [maxcapsWarning] else []) ++
      (if toU32 (getInt tag.minlen 4) < 1 ∨ toU32 (getInt tag.minlen 4) > toU32 (MAXBUF - 1)
        then [minlenWarning] else []) := by
  unfold ReadConf maxcapsWarning minlenWarning
  simp only []
  split_ifs <;> rfl

/-- Nothing of the previous members survives `ReadConf`. -/
theorem ReadConf_frame (MAXBUF : Int) (s1 s2 : NoAllCapsNicks) (tag : ConfigTag) :
    ReadConf MAXBUF s1 tag = ReadConf MAXBUF s2 tag := rfl

/-- C14: `ReadConf` is a total function, and its log is the `maxcaps` warning
exactly when `maxcaps` was replaced, followed by the `minlen` warning exactly
when `minlen` was replaced; `maxcaps` is replaced exactly when the value
stored from the configuration is outside `1..100`, and then by 100; `minlen`
is replaced exactly when the stored value is outside `1..MAXBUF-1`, and then
by 4; configured values in range leave the log empty; and for a configured
value that fits a 32-bit `int`, the member was replaced exactly when its final
value differs from the configured one. `MAXBUF` is the host macro, an `int`
of at least 5. -/
theorem C14_ReadConf_warnings (MAXBUF : Int) (self : NoAllCapsNicks) (tag : ConfigTag)
    (hM : 5 ≤ MAXBUF ∧ MAXBUF ≤ 2147483648) :
    ((ReadConf MAXBUF self tag).2 =
      (if (ReadConf MAXBUF self tag).1.maxcaps ≠ storedMaxcaps tag
        then [maxcapsWarning] else []) ++
      (if (ReadConf MAXBUF self tag).1.minlen ≠ storedMinlen tag
        then [minlenWarning] else [])) ∧
    ((ReadConf MAXBUF self tag).1.maxcaps ≠ storedMaxcaps tag ↔
      (¬ (1 ≤ storedMaxcaps tag ∧ storedMaxcaps tag ≤ 100) ∧
        (ReadConf MAXBUF self tag).1.maxcaps = 100)) ∧
    ((ReadConf MAXBUF self tag).1.minlen ≠ storedMinlen tag ↔
      (¬ (1 ≤ storedMinlen tag ∧ (storedMinlen tag : Int) ≤ MAXBUF - 1) ∧
        (ReadConf MAXBUF self tag).1.minlen = 4)) ∧
    ((1 ≤ getInt tag.maxcaps 100 ∧ getInt tag.maxcaps 100 ≤ 100 ∧
        1 ≤ getInt tag.minlen 4 ∧ getInt tag.minlen 4 ≤ MAXBUF - 1) →
      (ReadConf MAXBUF self tag).2 = []) ∧
    ((-2147483648 ≤ getInt tag.maxcaps 100 ∧ getInt tag.maxcaps 100 < 2147483648) →
      ((ReadConf MAXBUF self tag).1.maxcaps ≠ storedMaxcaps tag ↔
        ((ReadConf MAXBUF self tag).1.maxcaps : Int) ≠ getInt tag.maxcaps 100)) ∧
    ((-2147483648 ≤ getInt tag.minlen 4 ∧ getInt tag.minlen 4 < 2147483648) →
      ((ReadConf MAXBUF self tag).1.minlen ≠ storedMinlen tag ↔
        ((ReadConf MAXBUF self tag).1.minlen : Int) ≠ getInt tag.minlen 4)) := by
  have hb : toU32 (MAXBUF - 1) = (MAXBUF - 1).toNat := by
    unfold toU32; omega
  rw [ReadConf_logs, ReadConf_maxcaps, ReadConf_minlen, hb]
  unfold storedMaxcaps storedMinlen
  refine ⟨?_, ?_, ?_, ?_, ?_, ?_⟩
  · congr 1
    · by_cases h : toU32 (getInt tag.maxcaps 100) < 1 ∨ toU32 (getInt tag.maxcaps 100) > 100
      · have hne : (100 : Nat) ≠ toU32 (getInt tag.maxcaps 100) := by omega
        simp only [if_pos h, hne, ne_eq, not_false_eq_true, if_true]
      · simp only [if_neg h, ne_eq, not_true_eq_false, if_false]
    · by_cases h : toU32 (getInt tag.minlen 4) < 1 ∨
          toU32 (getInt tag.minlen 4) > (MAXBUF - 1).toNat
      · have hne : (4 : Nat) ≠ toU32 (getInt tag.minlen 4) := by omega
        simp only [if_pos h, hne, ne_eq, not_false_eq_true, if_true]
      · simp only [if_neg h, ne_eq, not_true_eq_false, if_false]
  · split_ifs with h <;> omega
  · split_ifs with h <;> omega
  · rintro ⟨h1, h2, h3, h4⟩
    have e1 : toU32 (getInt tag.maxcaps 100) = (getInt tag.maxcaps 100).toNat := by
      unfold toU32; omega
    have e2 : toU32 (getInt tag.minlen 4) = (getInt tag.minlen 4).toNat := by
      unfold toU32; omega
    have n1 : ¬ (toU32 (getInt tag.maxcaps 100) < 1 ∨ toU32 (getInt tag.maxcaps 100) > 100) := by
      rw [e1]; omega
    have n2 : ¬ (toU32 (getInt tag.minlen 4) < 1 ∨
        toU32 (getInt tag.minlen 4) > (MAXBUF - 1).toNat) := by
      rw [e2]; omega
    rw [if_neg n1, if_neg n2]
    rfl
  · rintro ⟨h1, h2⟩
    generalize getInt tag.maxcaps 100 = v at *
    unfold toU32
    split_ifs with h <;> omega
  · rintro ⟨h1, h2⟩
    generalize getInt tag.minlen 4 = v at *
    unfold toU32
    split_ifs with h <;> omega

/-- C14 at `MAXBUF = 514`: `maxcaps=150 minlen=0` logs both warnings, in that
order, and `maxcaps=50 minlen=4` logs nothing. -/
theorem C14_ReadConf_warnings_witness :
    (ReadConf 514 blank tagOutOfRange).2 = [maxcapsWarning, minlenWarning] ∧
    (ReadConf 514 blank tag50).2 = [] :=
  ⟨(C14_ReadConf_warnings 514 blank tagOutOfRange (by decide)).1.trans (by decide),
   (C14_ReadConf_warnings 514 blank tag50 (by decide)).2.2.2.1 (by decide)⟩

/-- C15: the result of `ReadConf`, and so of `OnRehash`, is the same from any
two previous states; running it again on the same configuration changes
nothing; and every entry of the new map is decided by the new `capsmap`
string alone, so a byte absent from it has entry 0 whatever the old map. -/
theorem C15_ReadConf_rebuilds_policy (MAXBUF : Int) (s1 s2 : NoAllCapsNicks)
    (tag : ConfigTag) (b : Fin 256) :
    ReadConf MAXBUF s1 tag = ReadConf MAXBUF s2 tag ∧
    OnRehash MAXBUF s1 tag = OnRehash MAXBUF s2 tag ∧
    ReadConf MAXBUF (ReadConf MAXBUF s1 tag).1 tag = ReadConf MAXBUF s1 tag ∧
    ((ReadConf MAXBUF s1 tag).1.capsmap b = 0 ↔
      ¬ ∃ c ∈ getString tag.capsmap defaultCapsmap, ucharOf c = b) ∧
    ((ReadConf MAXBUF s1 tag).1.capsmap b = 1 ↔
      ∃ c ∈ getString tag.capsmap defaultCapsmap, ucharOf c = b) := by
  refine ⟨ReadConf_frame MAXBUF s1 s2 tag, ReadConf_frame MAXBUF s1 s2 tag,
    ReadConf_frame MAXBUF _ s1 tag, ?_, ?_⟩
  · rw [ReadConf_capsmap_apply]
    split_ifs with h <;> simp [h]
  · rw [ReadConf_capsmap_apply]
    split_ifs with h <;> simp [h]

/-- A reload on a concrete case: the policy with map `A`-`Z` classifies `A`;
after `ReadConf` with `capsmap="a"` the byte `A` is no longer classified and
`a` is. -/
theorem ReadConf_reload_example :
    isCapital policy50.capsmap 65 = true ∧
    isCapital (ReadConf 514 policy50 tagLowerA).1.capsmap 65 = false ∧
    isCapital (ReadConf 514 policy50 tagLowerA).1.capsmap 97 = true := by
  decide

/-! ## Implicit properties of `DenyNick` -/

/-- The division by zero happens exactly for a nick longer than `minlen` whose
length is a multiple of `2^32`. -/
theorem DenyNick_eq_none_iff (self : NoAllCapsNicks) (nick : List Int) :
    DenyNick self nick = none ↔
      (nick.length > self.minlen ∧ nick.length % 4294967296 = 0) := by
  unfold DenyNick
  simp only [toU32_natCast]
  split_ifs with h1 h2 h3
  · simp; omega
  · simp; omega
  · simp; omega
  · simp; omega

/-- C16 as stated fails: with `minlen = 0` the nick of `2^32` bytes `A` passes
the length gate, the divisor `(int)nick.length()` is 0, and `DenyNick` divides
by zero. -/
theorem C16_counterexample :
    nickCaps4G.length > policyMin0.minlen ∧
    toU32 (nickCaps4G.length : Int) = 0 ∧
    DenyNick policyMin0 nickCaps4G = none := by
  have hlen : nickCaps4G.length = 4294967296 := List.length_replicate _ _
  have hmin : policyMin0.minlen = 0 := rfl
  refine ⟨?_, ?_, ?_⟩
  · rw [hlen, hmin]; norm_num
  · rw [hlen]; decide
  · rw [DenyNick_eq_none_iff, hlen, hmin]
    norm_num

/-- C16, amended: for a nick shorter than `2^32` bytes `DenyNick` never divides
by zero. The length gate returns false for a nick no longer than `minlen`, so
for the empty nick; past the gate the divisor is not zero; the function
returns; and every index into the map is below 256. -/
theorem C16_DenyNick_no_zero_division (self : NoAllCapsNicks) (nick : List Int)
    (hlen : nick.length < 4294967296) :
    (nick.length ≤ self.minlen → DenyNick self nick = some false) ∧
    (nick.length > self.minlen → toU32 (nick.length : Int) ≠ 0) ∧
    DenyNick self nick ≠ none ∧
    DenyNick self [] = some false ∧
    (∀ c : Int, (ucharOf c).val < 256) := by
  refine ⟨DenyNick_short self nick, ?_, ?_, ?_, fun c => (ucharOf c).isLt⟩
  · intro hgt
    rw [toU32_of_lt _ hlen]
    omega
  · rw [Ne, DenyNick_eq_none_iff]
    rintro ⟨hgt, hz⟩
    omega
  · exact DenyNick_short self [] (Nat.zero_le _)

/-- C16, amended, at `minlen = 0`, `maxcaps = 50`, map `A`-`Z`: the empty nick
is accepted at the gate and `"ABCdef"` is judged without a zero divisor. -/
theorem C16_DenyNick_no_zero_division_witness :
    DenyNick policyMin0 [] = some false ∧
    toU32 (nickABCdef.length : Int) ≠ 0 ∧
    DenyNick policyMin0 nickABCdef ≠ none :=
  ⟨(C16_DenyNick_no_zero_division policyMin0 nickABCdef (by decide)).2.2.2.1,
   (C16_DenyNick_no_zero_division policyMin0 nickABCdef (by decide)).2.1 (by decide),
   (C16_DenyNick_no_zero_division policyMin0 nickABCdef (by decide)).2.2.1⟩

/-- C17: for a nick longer than `minlen` and short enough that nothing wraps
32 bits, the truncated quotient reaches `maxcaps` exactly when
`count * 100 ≥ maxcaps * length`, for every count and every `maxcaps`; so
`DenyNick` rejects exactly when the capitals are at least `maxcaps` percent
of the nick. -/
theorem C17_DenyNick_division_free (self : NoAllCapsNicks) (nick : List Int)
    (hok : CapsmapOK self.capsmap) (hgt : nick.length > self.minlen)
    (hlen : nick.length < 4294967296)
    (hcnt : capsCount self.capsmap nick * 100 < 4294967296) :
    (∀ count maxcaps : Nat,
      count * 100 / nick.length ≥ maxcaps ↔ count * 100 ≥ maxcaps * nick.length) ∧
    (DenyNick self nick = some true ↔
      capsCount self.capsmap nick * 100 ≥ self.maxcaps * nick.length) ∧
    (DenyNick self nick = some false ↔
      capsCount self.capsmap nick * 100 < self.maxcaps * nick.length) := by
  have hpos : 0 < nick.length := by omega
  have hdiv : ∀ count maxcaps : Nat,
      count * 100 / nick.length ≥ maxcaps ↔ count * 100 ≥ maxcaps * nick.length := by
    intro count maxcaps
    rw [ge_iff_le, Nat.le_div_iff_mul_le hpos]
  refine ⟨hdiv, ?_, ?_⟩
  · rw [DenyNick_eq_shouldReject self nick hok hlen hcnt]
    unfold shouldReject
    simp only [Option.some.injEq, decide_eq_true_eq]
    rw [hdiv]
    exact ⟨fun h => h.2, fun h => ⟨hgt, h⟩⟩
  · rw [DenyNick_eq_shouldReject self nick hok hlen hcnt]
    unfold shouldReject
    simp only [Option.some.injEq, decide_eq_false_iff_not]
    rw [hdiv]
    constructor
    · intro h
      by_contra hc
      exact h ⟨hgt, by omega⟩
    · rintro h ⟨_, h2⟩
      omega

/-- C17 at `minlen=4 maxcaps=50`, map `A`-`Z`, nick `"ABCdef"`:
`300 ≥ 50 * 6`, rejected. -/
theorem C17_DenyNick_division_free_witness :
    capsCount policy50.capsmap nickABCdef * 100 ≥ policy50.maxcaps * nickABCdef.length ∧
    DenyNick policy50 nickABCdef = some true :=
  ⟨by decide,
   (C17_DenyNick_division_free policy50 nickABCdef (ReadConf_capsmapOK 514 blank tag50)
      (by decide) (by decide) (by decide)).2.1.2 (by decide)⟩

/-- C18: for a fixed nick and map, a nick rejected under `(minlen, maxcaps)`
is rejected under every `(minlen', maxcaps')` with `minlen' ≤ minlen` and
`maxcaps' ≤ maxcaps`; and a nick accepted under the lower thresholds stays
accepted under the higher ones. -/
theorem C18_DenyNick_monotone (capsmap : Fin 256 → Int) (nick : List Int)
    (minlen maxcaps minlen' maxcaps' : Nat)
    (hmin : minlen' ≤ minlen) (hmax : maxcaps' ≤ maxcaps) :
    (DenyNick { maxcaps := maxcaps, minlen := minlen, capsmap := capsmap } nick = some true →
      DenyNick { maxcaps := maxcaps', minlen := minlen', capsmap := capsmap } nick
        = some true) ∧
    (DenyNick { maxcaps := maxcaps', minlen := minlen', capsmap := capsmap } nick = some false →
      DenyNick { maxcaps := maxcaps, minlen := minlen, capsmap := capsmap } nick
        = some false) := by
  unfold DenyNick
  simp only []
  generalize tally capsmap nick 0 * 100 % 4294967296 / toU32 (nick.length : Int) = q
  constructor
  · intro h
    by_cases h1 : nick.length ≤ minlen
    · rw [if_pos h1] at h
      simp at h
    · rw [if_neg h1] at h
      by_cases h2 : toU32 (nick.length : Int) = 0
      · rw [if_pos h2] at h
        simp at h
      · rw [if_neg h2] at h
        by_cases h3 : q ≥ maxcaps
        · have g1 : ¬ nick.length ≤ minlen' := by omega
          have g3 : q ≥ maxcaps' := by omega
          rw [if_neg g1, if_neg h2, if_pos g3]
        · rw [if_neg h3] at h
          simp at h
  · intro h
    by_cases g1 : nick.length ≤ minlen
    · rw [if_pos g1]
    · have h1 : ¬ nick.length ≤ minlen' := by omega
      rw [if_neg h1] at h
      by_cases h2 : toU32 (nick.length : Int) = 0
      · rw [if_pos h2] at h
        simp at h
      · rw [if_neg h2] at h
        by_cases h3 : q ≥ maxcaps'
        · rw [if_pos h3] at h
          simp at h
        · have g3 : ¬ q ≥ maxcaps := by omega
          rw [if_neg g1, if_neg h2, if_neg g3]

/-- C18 with map `A`-`Z` and nick `"ABCdef"`: rejected under
`minlen=4 maxcaps=50`, so rejected under `minlen=2 maxcaps=30`. -/
theorem C18_DenyNick_monotone_witness :
    DenyNick { maxcaps := 50, minlen := 4, capsmap := policy50.capsmap } nickABCdef
      = some true ∧
    DenyNick { maxcaps := 30, minlen := 2, capsmap := policy50.capsmap } nickABCdef
      = some true :=
  ⟨by decide,
   (C18_DenyNick_monotone policy50.capsmap nickABCdef 4 50 2 30 (by decide) (by decide)).1
      (by decide)⟩

/-! ## The exemption of operators -/

/-- C19: `OnUserPreJoin` does not read the operator status: two users with the
same nick, in particular one user with either status, get the same result;
and an operator whose nick `DenyNick` rejects is denied on a `+U` channel. -/
theorem C19_OnUserPreJoin_ignores_oper (self : NoAllCapsNicks) (user : User)
    (chan : Option Channel) :
    (∀ b : Bool,
      OnUserPreJoin self { user with oper := b } chan = OnUserPreJoin self user chan) ∧
    (∀ other : User, other.nick = user.nick →
      OnUserPreJoin self other chan = OnUserPreJoin self user chan) ∧
    (∀ c : Channel, user.oper = true → c.modeU = true →
      DenyNick self user.nick = some true →
      ∃ out, OnUserPreJoin self user (some c) = some (ModResult.MOD_RES_DENY, out)) := by
  refine ⟨fun b => rfl, ?_, ?_⟩
  · intro other hn
    unfold OnUserPreJoin
    rw [hn]
  · intro c _ hc hd
    unfold OnUserPreJoin
    simp [hc, hd]

/-- C19 at `minlen=4 maxcaps=50`, map `A`-`Z`: the operator `"ALLCAPS"` is
denied on a `+U` channel, as the same user without the status is, while the
rename hook lets the operator through. -/
theorem C19_OnUserPreJoin_ignores_oper_witness :
    (∃ out, OnUserPreJoin policy50 operALLCAPS (some chanU) =
      some (ModResult.MOD_RES_DENY, out)) ∧
    OnUserPreJoin policy50 { operALLCAPS with oper := false } (some chanU) =
      OnUserPreJoin policy50 operALLCAPS (some chanU) ∧
    OnUserPreNick policy50 operALLCAPS nickALLCAPS = some (ModResult.MOD_RES_PASSTHRU, []) :=
  ⟨(C19_OnUserPreJoin_ignores_oper policy50 operALLCAPS (some chanU)).2.2 chanU rfl rfl
      (by decide),
   (C19_OnUserPreJoin_ignores_oper policy50 operALLCAPS (some chanU)).1 false,
   by decide⟩

end NickCaps
